import Mathlib

/-!
# Formal model of the circuit-editor core (gates, pins, wires, junctions)

A shallow embedding of the circuit graph model of the editor in
`src/logic/gates.py` (plus the guide-line snapping of
`src/rulers/guide_lines.py`), together with proofs about:

* the geometry/snap service (`snap_position_to_grid`, guide snapping,
  orthogonal routing),
* the connection validator (`is_valid_connection`),
* the interactive session state machine (wire tool, branch gesture,
  deletion, rotation) and its wire-incidence invariants,
* the gate model (`GateItem.rotate_gate`, `create_connection_points`),
* the TikZ serializer (`get_all_tikz_code`, `get_connection_reference`,
  gate-identifier assignment).

Coordinates are modelled as rationals (`ℚ`); Python's `round` (banker's
rounding, round-half-to-even) is modelled by `pyround`.  Object identity of
Qt graphics items is modelled structurally; since `GateItem.rotate_gate`
destroys a gate's `ConnectionPoint` objects and creates fresh ones, pin
endpoints carry a generation number `gen` that is bumped on each rotation.
-/

/-! ## Basic enumerations -/

/-- The role of a `ConnectionPoint` (`point_type` in the source). -/
inductive PinRole where
  | input
  | output
deriving DecidableEq

/-- The seven gate kinds handled by the editor (`gate_type` strings). -/
inductive GateType where
  | AND
  | OR
  | NOT
  | NAND
  | NOR
  | XOR
  | XNOR
deriving DecidableEq

/-- The lowercase kind name, `gate.gate_type.lower()` in the source. -/
def GateType.lower : GateType → String
  | .AND => "and"
  | .OR => "or"
  | .NOT => "not"
  | .NAND => "nand"
  | .NOR => "nor"
  | .XOR => "xor"
  | .XNOR => "xnor"

/-! ## Decimal printing of naturals

Python renders the 1-based index with `f"...{i+1}"`, i.e. decimal notation
without leading zeros.  We model this with an explicit little-endian digit
expansion whose round-trip properties we can prove. -/

/-- Little-endian base-10 digit expansion, structurally recursive on a fuel
argument so that it reduces by computation. -/
def toDigitsLEAux : Nat → Nat → List Nat
  | _, 0 => []
  | 0, _ + 1 => []
  | fuel + 1, n + 1 => ((n + 1) % 10) :: toDigitsLEAux fuel ((n + 1) / 10)

/-- Little-endian base-10 digits of `n` (empty for `0`). -/
def toDigitsLE (n : Nat) : List Nat :=
  toDigitsLEAux n n

/-- Value of a little-endian base-10 digit list. -/
def ofDigitsLE : List Nat → Nat
  | [] => 0
  | d :: ds => d + 10 * ofDigitsLE ds

/-- Decimal string of a natural number, as Python's `str`/f-string renders
nonnegative integers. -/
def natToStr (n : Nat) : String :=
  if n = 0 then "0" else String.mk (((toDigitsLE n).map Nat.digitChar).reverse)

/-! ## Geometry / snap service

`CircuitCanvas.snap_position_to_grid` first rounds each axis to the nearest
grid multiple with Python's `round` (if grid snapping is enabled), then hands
the point to `GuideLineManager.get_snap_position`, which for each axis
replaces the coordinate by the first guide within the snap threshold. -/

/-- Python's `round` on exact values: round half to even. -/
def pyround (q : ℚ) : ℤ :=
  let f := ⌊q⌋
  let frac := q - f
  if frac < 1/2 then f
  else if 1/2 < frac then f + 1
  else if f % 2 = 0 then f else f + 1

/-- One axis of the grid stage: `round(pos.x() / self.grid_size) * self.grid_size`. -/
def snapCoordGrid (gridSize : ℤ) (x : ℚ) : ℚ :=
  (pyround (x / gridSize) : ℚ) * (gridSize : ℚ)

/-- One axis of `GuideLineManager.get_snap_position`: the first guide within
`snap_threshold` of `x` wins; with no matching guide, `x` is unchanged. -/
def guideSnapAxis (guides : List ℚ) (threshold x : ℚ) : ℚ :=
  match guides.find? (fun g => |x - g| ≤ threshold) with
  | some g => g
  | none => x

/-- Model of `GuideLineManager.get_snap_position` (vertical guides snap X,
horizontal guides snap Y). -/
def getSnapPosition (snapEnabled : Bool) (threshold : ℚ) (vGuides hGuides : List ℚ)
    (pos : ℚ × ℚ) : ℚ × ℚ :=
  if snapEnabled then
    (guideSnapAxis vGuides threshold pos.1, guideSnapAxis hGuides threshold pos.2)
  else pos

/-- Model of `CircuitCanvas.snap_position_to_grid`. -/
def snap_position_to_grid (snapToGridEnabled : Bool) (gridSize : ℤ)
    (guideSnapEnabled : Bool) (threshold : ℚ) (vGuides hGuides : List ℚ)
    (pos : ℚ × ℚ) : ℚ × ℚ :=
  let p := if snapToGridEnabled then (snapCoordGrid gridSize pos.1, snapCoordGrid gridSize pos.2)
           else pos
  getSnapPosition guideSnapEnabled threshold vGuides hGuides p

/-! ## Orthogonal routing

Both `CircuitCanvas.mouseMoveEvent` (the live preview with Shift held) and
the branch-junction placement in `CircuitCanvas.mousePressEvent` project the
target point onto one axis through the reference point, choosing the axis by
`abs(dx) > abs(dy)`. -/

/-- The Shift-constrained preview position in `mouseMoveEvent`. -/
def previewOrthoPos (startPos scenePos : ℚ × ℚ) : ℚ × ℚ :=
  let dx := scenePos.1 - startPos.1
  let dy := scenePos.2 - startPos.2
  if |dx| > |dy| then (scenePos.1, startPos.2) else (startPos.1, scenePos.2)

/-- The branch-junction position in `mousePressEvent` with Shift held
(`shift_ctrl_pressed` additionally snaps the projected point). -/
def branchJunctionPos (shiftCtrlPressed : Bool) (gridOn : Bool) (gridSize : ℤ)
    (guideOn : Bool) (threshold : ℚ) (vGuides hGuides : List ℚ)
    (startPos scenePos : ℚ × ℚ) : ℚ × ℚ :=
  let dx := scenePos.1 - startPos.1
  let dy := scenePos.2 - startPos.2
  let finalPos := if |dx| > |dy| then (scenePos.1, startPos.2) else (startPos.1, scenePos.2)
  if shiftCtrlPressed then
    snap_position_to_grid gridOn gridSize guideOn threshold vGuides hGuides finalPos
  else finalPos

/-! ## Endpoints and the circuit state

A wire endpoint is either a gate `ConnectionPoint` or a `JunctionPoint`.
Equality of endpoints models Python object identity: `rotate_gate` removes a
gate's `ConnectionPoint` objects and creates fresh ones, so a pin endpoint
carries the generation `gen` of the point set it belongs to. -/

/-- A wire endpoint (`ConnectionPoint` or `JunctionPoint`). -/
inductive Endpoint where
  | pin (gateId gen : Nat) (role : PinRole) (index : Nat)
  | junction (jId : Nat)
deriving DecidableEq

/-- Is this endpoint a `ConnectionPoint` (gate pin)? -/
def Endpoint.isPin : Endpoint → Bool
  | .pin _ _ _ _ => true
  | .junction _ => false

/-- Is this endpoint an input `ConnectionPoint`? -/
def Endpoint.isInputPin : Endpoint → Bool
  | .pin _ _ .input _ => true
  | _ => false

/-- A gate in the live scene (`GateItem`'s topological attributes). -/
structure CGate where
  gateType : GateType
  numInputs : Nat
  angle : Nat
  gen : Nat
deriving DecidableEq

/-- The mutable scene state relevant to the circuit graph: gates and
junctions keyed by identity, the wire list, and the wire tool's
`start_connection_point` (`none` when not connecting). -/
structure Circuit where
  gates : List (Nat × CGate)
  junctions : List Nat
  wires : List (Endpoint × Endpoint)
  nextGateId : Nat
  nextJunctionId : Nat
  connecting : Option Endpoint
deriving DecidableEq

/-- The empty scene. -/
def emptyCircuit : Circuit :=
  ⟨[], [], [], 0, 0, none⟩

/-- Look up a live gate by identity. -/
def Circuit.findGate (s : Circuit) (gid : Nat) : Option CGate :=
  (s.gates.find? (fun p => decide (p.1 = gid))).map (fun p => p.2)

/-- The length of the `connected_wires` list of the graphics item `e`:
every wire registers itself with both endpoints on creation and is
unregistered on deletion, so the list is exactly the set of live wires
having `e` (the very object, generation included) as an endpoint. -/
def Circuit.wiresAt (s : Circuit) (e : Endpoint) : Nat :=
  s.wires.countP (fun w => decide (w.1 = e) || decide (w.2 = e))

/-- Model of `CircuitCanvas.is_valid_connection`.  Rules in source order: self-loop,
junction bypass, same role, same gate, then occupied-input checks on each
side. -/
def is_valid_connection (s : Circuit) (point1 point2 : Endpoint) : Bool :=
  if point1 = point2 then false
  else
    match point1, point2 with
    | .junction _, _ => true
    | _, .junction _ => true
    | .pin g1 n1 r1 i1, .pin g2 n2 r2 i2 =>
      if r1 = r2 then false
      else if g1 = g2 then false
      else if r1 = .input && s.wiresAt (.pin g1 n1 r1 i1) > 0 then false
      else if r2 = .input && s.wiresAt (.pin g2 n2 r2 i2) > 0 then false
      else true

/-- Is `e` an item currently present in the scene (hence clickable)?  A pin
is clickable iff its gate is live, the pin belongs to the gate's current
point generation, and its role/index exist on the gate; a junction is
clickable iff it is live. -/
def Circuit.clickable (s : Circuit) (e : Endpoint) : Bool :=
  match e with
  | .junction j => s.junctions.contains j
  | .pin g n role idx =>
    match s.findGate g with
    | some cg =>
      decide (n = cg.gen) &&
        (match role with
         | .input => decide (idx < cg.numInputs)
         | .output => decide (idx = 0))
    | none => false

/-- Does the wire `w` touch a current-generation pin of gate `gid`?  Used by
gate deletion, which walks the gate's (current) `input_points` and
`output_points` and removes the wires registered there. -/
def touchesCurrentPin (gid gen : Nat) (w : Endpoint × Endpoint) : Bool :=
  let isCur : Endpoint → Bool := fun e =>
    match e with
    | .pin g n _ _ => decide (g = gid) && decide (n = gen)
    | .junction _ => false
  isCur w.1 || isCur w.2

/-- Does the wire `w` touch junction `j`? -/
def touchesJunction (j : Nat) (w : Endpoint × Endpoint) : Bool :=
  decide (w.1 = Endpoint.junction j) || decide (w.2 = Endpoint.junction j)

/-! ## The interactive session state machine

One constructor per user gesture that mutates the circuit graph:

* `placeGate`: click with a gate tool (`mousePressEvent`, gate branch);
* `rotateGate`: the rotate command (`GateItem.rotate_gate`);
* `startConnect`: wire tool, click a pin/junction while not connecting;
* `completeConnect`: wire tool, click a pin/junction while connecting;
* `branch`: wire tool, Shift-click empty canvas while connecting
  (junction insertion; the junction position does not affect topology);
* `cancelConnect`: Escape / right click / plain click on empty canvas;
* `deleteWire` / `deleteGate` / `deleteJunction`: the delete command
  (`LaTeXCircuitDesigner.delete_selected`) on a selected item. -/
inductive Op where
  | placeGate (t : GateType)
  | rotateGate (gid : Nat)
  | startConnect (e : Endpoint)
  | completeConnect (e : Endpoint)
  | branch
  | cancelConnect
  | deleteWire (i : Nat)
  | deleteGate (gid : Nat)
  | deleteJunction (j : Nat)

/-- One step of the session state machine. -/
def step (s : Circuit) (op : Op) : Circuit :=
  match op with
  | .placeGate t =>
    let inputs := if t = .NOT then 1 else 2
    { s with gates := s.gates ++ [(s.nextGateId, ⟨t, inputs, 0, 0⟩)],
             nextGateId := s.nextGateId + 1 }
  | .rotateGate gid =>
    { s with gates := s.gates.map (fun p =>
        if p.1 = gid then
          (p.1, { p.2 with angle := (p.2.angle + 90) % 360, gen := p.2.gen + 1 })
        else p) }
  | .startConnect e =>
    if s.connecting = none && s.clickable e then { s with connecting := some e } else s
  | .completeConnect e =>
    match s.connecting with
    | none => s
    | some a =>
      if s.clickable e then
        if e ≠ a && is_valid_connection s a e then
          { s with wires := s.wires ++ [(a, e)], connecting := none }
        else
          { s with connecting := none }
      else s
  | .branch =>
    match s.connecting with
    | none => s
    | some a =>
      let j := s.nextJunctionId
      { s with junctions := s.junctions ++ [j],
               wires := s.wires ++ [(a, .junction j)],
               nextJunctionId := j + 1,
               connecting := some (.junction j) }
  | .cancelConnect => { s with connecting := none }
  | .deleteWire i => { s with wires := s.wires.eraseIdx i }
  | .deleteGate gid =>
    match s.findGate gid with
    | none => s
    | some cg =>
      { s with gates := s.gates.filter (fun p => !decide (p.1 = gid)),
               wires := s.wires.filter (fun w => !touchesCurrentPin gid cg.gen w) }
  | .deleteJunction j =>
    { s with junctions := s.junctions.filter (fun x => !decide (x = j)),
             wires := s.wires.filter (fun w => !touchesJunction j w) }

/-- Run a sequence of operations from the empty scene. -/
def run (ops : List Op) : Circuit :=
  ops.foldl step emptyCircuit

/-- The wires incident to the pin object `e` whose *other* endpoint is also
a pin (not a junction). -/
def Circuit.pinPinWiresAt (s : Circuit) (e : Endpoint) : Nat :=
  s.wires.countP (fun w =>
    (decide (w.1 = e) && w.2.isPin) || (decide (w.2 = e) && w.1.isPin))

/-- Does endpoint `e` sit on input pin position `idx` of gate `gid`,
regardless of point generation?  This identifies the *logical* input pin of
the specification's data model, which survives rotation. -/
def onInputPinPosition (gid idx : Nat) (e : Endpoint) : Bool :=
  match e with
  | .pin g _ .input i => decide (g = gid) && decide (i = idx)
  | _ => false

/-- Number of wires incident to the logical input pin `(gid, idx)`,
across all point generations. -/
def Circuit.wiresAtInputPosition (s : Circuit) (gid idx : Nat) : Nat :=
  s.wires.countP (fun w => onInputPinPosition gid idx w.1 || onInputPinPosition gid idx w.2)

/-- Number of wires incident to the logical input pin `(gid, idx)` whose
other endpoint is a pin. -/
def Circuit.pinPinWiresAtInputPosition (s : Circuit) (gid idx : Nat) : Nat :=
  s.wires.countP (fun w =>
    (onInputPinPosition gid idx w.1 && w.2.isPin) ||
      (onInputPinPosition gid idx w.2 && w.1.isPin))

/-! ## The gate item: connection-point layout and rotation

`GateItem.create_connection_points` lays out the input points on the left
edge (a fixed two-slot layout for two inputs, an even distribution
otherwise) and a single output point on the right edge; the layout depends
only on `num_inputs`.  `GateItem.rotate_gate` advances `angle` by 90°
modulo 360° and regenerates the points. -/

/-- A `ConnectionPoint` as owned by a gate: role, index and local offset. -/
structure CPoint where
  point_type : PinRole
  index : Nat
  x : ℚ
  y : ℚ
deriving DecidableEq

/-- The input points created by `GateItem.create_connection_points`
(gate height is 60, two-input gates use the fixed offsets ±5 at x = −12,
other arities are evenly spaced at x = −10). -/
def createInputPoints (numInputs : Nat) : List CPoint :=
  if numInputs = 2 then
    [⟨.input, 0, -12, -5⟩, ⟨.input, 1, -12, 5⟩]
  else
    (List.range numInputs).map (fun i =>
      ⟨.input, i, -10, (60 : ℚ) / (numInputs + 1) * (i + 1) - 30⟩)

/-- The single output point (gate width 80, offset width + 10). -/
def outputPoint : CPoint := ⟨.output, 0, 90, 0⟩

/-- The topological attributes of a `GateItem`. -/
structure GateItem where
  gate_type : GateType
  num_inputs : Nat
  angle : Nat
  input_points : List CPoint
  output_points : List CPoint
deriving DecidableEq

/-- Model of `GateItem.create_connection_points`: clears and regenerates the
connection points (the layout does not read `angle`). -/
def GateItem.create_connection_points (g : GateItem) : GateItem :=
  { g with input_points := createInputPoints g.num_inputs,
           output_points := [outputPoint] }

/-- Model of `GateItem.__init__`: a freshly placed gate. -/
def GateItem.mkGate (t : GateType) (inputs : Nat) : GateItem :=
  GateItem.create_connection_points ⟨t, inputs, 0, [], []⟩

/-- Model of `GateItem.rotate_gate`: advance the angle by 90° mod 360° and
regenerate the connection points. -/
def GateItem.rotate_gate (g : GateItem) : GateItem :=
  GateItem.create_connection_points { g with angle := (g.angle + 90) % 360 }

/-- A gate's connection points are exactly the ones
`create_connection_points` generates. -/
def GateItem.wellFormed (g : GateItem) : Prop :=
  g.input_points = createInputPoints g.num_inputs ∧ g.output_points = [outputPoint]

/-! ## The TikZ serializer

`CircuitCanvas.get_all_tikz_code` enumerates the scene's gates, junctions
and wires, assigns textual identifiers, and emits one line-oriented
statement per entity.  `get_connection_reference` resolves a wire endpoint
to a textual reference, returning `None` when the endpoint is missing from
the identifier maps (or is not a connection/junction point at all). -/

/-- A gate as seen by the serializer. -/
structure SGate where
  gateType : GateType
  numInputs : Nat
  angle : Nat
  x : ℚ
  y : ℚ
deriving DecidableEq

/-- A wire endpoint as seen by the serializer: a `ConnectionPoint` of the
gate at position `gateIdx` of the enumeration (an index past the end models
a pin whose parent gate is no longer in the scene, hence not in
`gate_id_map`), a `JunctionPoint` (similarly by enumeration index), or some
other object. -/
inductive SEndpoint where
  | pin (gateIdx : Nat) (role : PinRole) (index : Nat)
  | junction (jIdx : Nat)
  | other
deriving DecidableEq

/-- The count `len([g for g in gates if g.gate_type == gate.gate_type])`. -/
def sameKindCount (kinds : List GateType) (t : GateType) : Nat :=
  kinds.countP (fun g => decide (g = t))

/-- The identifier assigned to the gate at enumeration position `i` with
kind `t`: the lowercase kind name, suffixed with the 1-based global index
when the kind occurs more than once. -/
def gateIdAt (kinds : List GateType) (i : Nat) (t : GateType) : String :=
  if 1 < sameKindCount kinds t then t.lower ++ natToStr (i + 1) else t.lower

/-- The `gate_id_map` of `get_all_tikz_code`, as a list parallel to the
gate enumeration. -/
def gateIds (kinds : List GateType) : List String :=
  kinds.enum.map (fun p => gateIdAt kinds p.1 p.2)

/-- Model of `CircuitCanvas.get_connection_reference` over a gate-kind enumeration
and a junction count. -/
def get_connection_reference (kinds : List GateType) (numJunctions : Nat)
    (connection : SEndpoint) : Option String :=
  match connection with
  | .junction j =>
    if j < numJunctions then some ("junction" ++ natToStr (j + 1)) else none
  | .pin gIdx role idx =>
    if h : gIdx < kinds.length then
      let gateId := gateIdAt kinds gIdx (kinds.get ⟨gIdx, h⟩)
      match role with
      | .output => some (gateId ++ ".output")
      | .input =>
        if gateId = "not" then some (gateId ++ ".input")
        else some (gateId ++ ".input " ++ natToStr (idx + 1))
    else none
  | .other => none

/-- Fixed-point formatting `f"{q:.2f}"` (two decimals, Python rounding). -/
def fmt2 (q : ℚ) : String :=
  let c := pyround (q * 100)
  let a := c.natAbs
  let cents := a % 100
  (if c < 0 then "-" else "") ++ natToStr (a / 100) ++ "." ++
    (if cents < 10 then "0" ++ natToStr cents else natToStr cents)

/-- The `tikz_gates` symbol-name table. -/
def GateType.tikzName : GateType → String
  | .AND => "and gate US"
  | .OR => "or gate US"
  | .NOT => "not gate US"
  | .NAND => "nand gate US"
  | .NOR => "nor gate US"
  | .XOR => "xor gate US"
  | .XNOR => "xnor gate US"

/-- Model of `GateItem.get_tikz_code`: one node statement per gate (position divided
by 50, vertical axis negated; an `inputs=` qualifier above two inputs; a
`rotate=` qualifier for a nonzero angle). -/
def gateTikzLine (gateId : String) (g : SGate) : String :=
  let inputsSpec := if 2 < g.numInputs then ", inputs=" ++ natToStr g.numInputs else ""
  let rotationSpec := if g.angle ≠ 0 then ", rotate=" ++ natToStr g.angle else ""
  "    \\node[" ++ g.gateType.tikzName ++ ", draw" ++ inputsSpec ++ rotationSpec ++
    "] (" ++ gateId ++ ") at (" ++ fmt2 (g.x / 50) ++ ", " ++ fmt2 (-g.y / 50) ++
    ") \x7b\x7d;"

/-- Model of `JunctionPoint.get_tikz_code`. -/
def junctionTikzLine (junctionId : String) (pos : ℚ × ℚ) : String :=
  "    \\node[circle, fill, inner sep=1pt] (" ++ junctionId ++ ") at (" ++
    fmt2 (pos.1 / 50) ++ ", " ++ fmt2 (-pos.2 / 50) ++ ") \x7b\x7d;"

/-- The scene as enumerated by the serializer (`scene.items()` filtered by
class). -/
structure Scene where
  gates : List SGate
  junctions : List (ℚ × ℚ)
  wires : List (Option SEndpoint × Option SEndpoint)
deriving DecidableEq

/-- The gate-kind enumeration underlying `gate_id_map`. -/
def Scene.kinds (s : Scene) : List GateType :=
  s.gates.map (fun g => g.gateType)

/-- The connection statement emitted for a wire, or `none` when either
endpoint is missing or fails to resolve (`WireItem.get_tikz_code` guarded by
the two checks in `get_all_tikz_code`). -/
def wireLine (s : Scene) (w : Option SEndpoint × Option SEndpoint) : Option String :=
  match w with
  | (some a, some b) =>
    match get_connection_reference s.kinds s.junctions.length a,
          get_connection_reference s.kinds s.junctions.length b with
    | some startRef, some endRef =>
      some ("    \\draw (" ++ startRef ++ ") -- (" ++ endRef ++ ");")
    | _, _ => none
  | _ => none

/-- Model of `CircuitCanvas.get_all_tikz_code`, as the list of emitted lines. -/
def tikzLines (s : Scene) : List String :=
  ["\\documentclass[tikz, border=15pt]\x7bstandalone\x7d",
   "\\usetikzlibrary\x7bpositioning, shapes.gates.logic.US, calc\x7d",
   "\\usepackage\x7bamsmath\x7d",
   "\\begin\x7bdocument\x7d",
   "\\begin\x7btikzpicture\x7d"]
  ++ (if s.gates.isEmpty then [] else
      "    % Gates" :: s.gates.enum.map (fun p => gateTikzLine (gateIdAt s.kinds p.1 p.2.gateType) p.2))
  ++ (if s.junctions.isEmpty then [] else
      "    " :: "    % Junctions" ::
        s.junctions.enum.map (fun p => junctionTikzLine ("junction" ++ natToStr (p.1 + 1)) p.2))
  ++ (if s.wires.isEmpty then [] else
      "    " :: "    % Connections" :: s.wires.filterMap (wireLine s))
  ++ ["\\end\x7btikzpicture\x7d", "\\end\x7bdocument\x7d"]

/-- The output of `get_all_tikz_code` joined with newlines, as returned to callers. -/
def get_all_tikz_code (s : Scene) : String :=
  String.intercalate "\n" (tikzLines s)

/-- A small scene with one AND gate and two wires, the first of which has a
dangling endpoint (its pin's parent gate, index 5, is not among the
enumerated gates, so `gate_id_map` has no entry for it). -/
def danglingScene : Scene :=
  ⟨[⟨.AND, 2, 0, 0, 0⟩], [],
   [(some (.pin 5 .input 0), some (.pin 0 .output 0)),
    (some (.pin 0 .output 0), some (.pin 0 .input 0))]⟩

/-! # Theorems -/

/-! ## Connection validator -/

/-- C8: `is_valid_connection(a, a)` is `False` for every endpoint `a`,
junctions included: the self-loop check is first and overrides the junction
rule. -/
theorem is_valid_connection_self_loop (s : Circuit) (a : Endpoint) :
    is_valid_connection s a a = false := by
  unfold is_valid_connection
  simp

/-- C9: two distinct connection points of the same gate are never a legal
connection, whatever their roles: equal roles fail the role rule, distinct
roles fail the same-gate rule. -/
theorem is_valid_connection_same_gate (s : Circuit) (g n1 n2 : Nat)
    (r1 r2 : PinRole) (i1 i2 : Nat)
    (hne : (Endpoint.pin g n1 r1 i1) ≠ (Endpoint.pin g n2 r2 i2)) :
    is_valid_connection s (.pin g n1 r1 i1) (.pin g n2 r2 i2) = false := by
  unfold is_valid_connection
  by_cases hr : r1 = r2 <;> simp [hne, hr]

/-- C9 witness: the two pins of a freshly placed AND gate. -/
theorem is_valid_connection_same_gate_witness :
    (Endpoint.pin 0 0 .input 0) ≠ (Endpoint.pin 0 0 .input 1)
    ∧ is_valid_connection (run [.placeGate .AND]) (.pin 0 0 .input 0) (.pin 0 0 .input 1) = false :=
  ⟨by decide, is_valid_connection_same_gate (run [.placeGate .AND]) 0 0 0 .input .input 0 1 (by decide)⟩

/-- C10: the validator is symmetric in its two endpoints: every rule
(self-loop, junction bypass, role equality, gate equality, and the pair of
occupied-input checks) is invariant under swapping the arguments. -/
theorem is_valid_connection_symm (s : Circuit) (a b : Endpoint) :
    is_valid_connection s a b = is_valid_connection s b a := by
  by_cases hab : a = b
  · simp [hab]
  · unfold is_valid_connection
    rw [if_neg hab, if_neg (Ne.symm hab)]
    rcases a with ⟨g1, n1, r1, i1⟩ | j1 <;> rcases b with ⟨g2, n2, r2, i2⟩ | j2
    · by_cases hr : r1 = r2 <;> by_cases hg : g1 = g2 <;>
        by_cases h1 : s.wiresAt (.pin g1 n1 r1 i1) > 0 <;>
        by_cases h2 : s.wiresAt (.pin g2 n2 r2 i2) > 0 <;>
        by_cases hi1 : r1 = PinRole.input <;> by_cases hi2 : r2 = PinRole.input <;>
        simp_all [eq_comm]
    · rfl
    · rfl
    · rfl

/-! ## Geometry / snap service -/

/-- C2 counterexample: with grid size 25 and no guides, the raw point
(13, 13) does **not** resolve to (0, 0): 13/25 = 0.52 rounds to 1, so the
point snaps to (25, 25). -/
theorem snap_13_13_not_origin :
    snap_position_to_grid true 25 true 10 [] [] (13, 13) ≠ (0, 0) := by
  norm_num [snap_position_to_grid, snapCoordGrid, getSnapPosition, guideSnapAxis, pyround]

/-- C2 (amended): grid snapping maps each coordinate to a multiple of the
grid spacing chosen by Python's `round`; with grid size 25 and no guides the
raw point (13, 13) resolves to (25, 25) (13 is past the midpoint 12.5) and
(12, 12) resolves to (0, 0). -/
theorem snap_position_to_grid_spec :
    snap_position_to_grid true 25 true 10 [] [] (13, 13) = (25, 25)
    ∧ snap_position_to_grid true 25 true 10 [] [] (12, 12) = (0, 0)
    ∧ ∀ x : ℚ, ∃ k : ℤ, snapCoordGrid 25 x = (k : ℚ) * 25 := by
  refine ⟨?_, ?_, fun x => ⟨pyround (x / 25), rfl⟩⟩ <;>
    norm_num [snap_position_to_grid, snapCoordGrid, getSnapPosition, guideSnapAxis, pyround]

/-- C4 counterexample: with equal absolute deltas the code picks the
**vertical** axis, not the horizontal one: from reference (0, 0), target
(10, 10) previews/branches at (0, 10) (x locked to the reference), not at
(10, 0). -/
theorem orthogonal_tie_is_vertical :
    previewOrthoPos (0, 0) (10, 10) = (0, 10)
    ∧ previewOrthoPos (0, 0) (10, 10) ≠ (10, 0)
    ∧ branchJunctionPos false true 25 true 10 [] [] (0, 0) (10, 10) = (0, 10) := by
  refine ⟨?_, ?_, ?_⟩ <;> norm_num [previewOrthoPos, branchJunctionPos]

/-- C4 (amended): in both orthogonal-routing sites (the Shift preview of
`mouseMoveEvent` and the branch-junction placement of `mousePressEvent`)
the dominant axis is the one with the strictly larger absolute delta, and
when the absolute deltas are equal the **vertical** axis is chosen. -/
theorem orthogonal_dominant_axis (gridOn : Bool) (gridSize : ℤ) (guideOn : Bool)
    (threshold : ℚ) (vGuides hGuides : List ℚ) (startPos scenePos : ℚ × ℚ) :
    (|scenePos.1 - startPos.1| > |scenePos.2 - startPos.2| →
      previewOrthoPos startPos scenePos = (scenePos.1, startPos.2)
      ∧ branchJunctionPos false gridOn gridSize guideOn threshold vGuides hGuides
          startPos scenePos = (scenePos.1, startPos.2))
    ∧ (|scenePos.1 - startPos.1| ≤ |scenePos.2 - startPos.2| →
      previewOrthoPos startPos scenePos = (startPos.1, scenePos.2)
      ∧ branchJunctionPos false gridOn gridSize guideOn threshold vGuides hGuides
          startPos scenePos = (startPos.1, scenePos.2)) := by
  constructor
  · intro h
    constructor <;> simp [previewOrthoPos, branchJunctionPos, h]
  · intro h
    constructor <;> simp [previewOrthoPos, branchJunctionPos, not_lt_of_le h]

/-- C4 witness: a strictly horizontal and a strictly vertical displacement. -/
theorem orthogonal_dominant_axis_witness :
    (|(1 : ℚ) - 0| > |(0 : ℚ) - 0| ∧ previewOrthoPos (0, 0) (1, 0) = (1, 0))
    ∧ (|(0 : ℚ) - 0| ≤ |(1 : ℚ) - 0| ∧ previewOrthoPos (0, 0) (0, 1) = (0, 1)) :=
  ⟨⟨by simp, ((orthogonal_dominant_axis true 25 true 10 [] [] (0, 0) (1, 0)).1 (by simp)).1⟩,
   ⟨by simp, ((orthogonal_dominant_axis true 25 true 10 [] [] (0, 0) (0, 1)).2 (by simp)).1⟩⟩

/-! ## Gate rotation -/

/-- C7: rotating a gate four times returns its angle to the original value;
each single rotation regenerates connection points with the same number of
input points, exactly one output point, and the same roles and indices as
before. -/
theorem rotate_gate_period_four (g : GateItem) (hang : g.angle < 360)
    (hw : g.wellFormed) :
    g.rotate_gate.rotate_gate.rotate_gate.rotate_gate.angle = g.angle
    ∧ g.rotate_gate.input_points.length = g.input_points.length
    ∧ g.rotate_gate.output_points.length = 1
    ∧ g.rotate_gate.input_points.map (fun p => (p.point_type, p.index))
        = g.input_points.map (fun p => (p.point_type, p.index))
    ∧ g.rotate_gate.output_points.map (fun p => (p.point_type, p.index))
        = g.output_points.map (fun p => (p.point_type, p.index)) := by
  obtain ⟨hin, hout⟩ := hw
  refine ⟨?_, ?_, ?_, ?_, ?_⟩
  · show ((((g.angle + 90) % 360 + 90) % 360 + 90) % 360 + 90) % 360 = g.angle
    omega
  · rw [show g.rotate_gate.input_points = createInputPoints g.num_inputs from rfl, hin]
  · rfl
  · rw [show g.rotate_gate.input_points = createInputPoints g.num_inputs from rfl, hin]
  · rw [show g.rotate_gate.output_points = [outputPoint] from rfl, hout]

/-- C7 witness: a freshly placed two-input AND gate. -/
theorem rotate_gate_period_four_witness :
    (GateItem.mkGate .AND 2).angle < 360 ∧ (GateItem.mkGate .AND 2).wellFormed
    ∧ (GateItem.mkGate .AND 2).rotate_gate.rotate_gate.rotate_gate.rotate_gate.angle
        = (GateItem.mkGate .AND 2).angle :=
  ⟨by decide, ⟨rfl, rfl⟩,
   (rotate_gate_period_four (GateItem.mkGate .AND 2) (by decide) ⟨rfl, rfl⟩).1⟩

/-! ## Connection references -/

/-- C3: `get_connection_reference` keys the single-input special case on the
identifier string being exactly `"not"`, not on the gate having one input:
with two NOT gates the first one's input resolves to `"not1.input 1"` (a
numeric suffix on a single-input gate), while a lone NOT gate resolves to
`"not.input"` and a two-input AND gate's first input to `"and.input 1"`. -/
theorem get_connection_reference_not_gate :
    get_connection_reference [.NOT, .NOT] 0 (.pin 0 .input 0) = some "not1.input 1"
    ∧ get_connection_reference [.NOT] 0 (.pin 0 .input 0) = some "not.input"
    ∧ get_connection_reference [.AND] 0 (.pin 0 .input 0) = some "and.input 1" :=
  ⟨by decide, by decide, by decide⟩

/-! ## Gate identifiers (serializer, step 1)

The identifier of a gate is its lowercase kind name, suffixed with the
1-based global enumeration index when the kind occurs more than once.  The
kind names contain no digit characters and the suffix is all digits and
nonempty, which makes the assignment collision-free. -/

theorem ofDigitsLE_toDigitsLEAux :
    ∀ fuel n, n ≤ fuel → ofDigitsLE (toDigitsLEAux fuel n) = n := by
  intro fuel
  induction fuel with
  | zero =>
    intro n hn
    cases n with
    | zero => rfl
    | succ m => exact absurd hn (by omega)
  | succ f ih =>
    intro n hn
    cases n with
    | zero => rfl
    | succ m =>
      show (m + 1) % 10 + 10 * ofDigitsLE (toDigitsLEAux f ((m + 1) / 10)) = m + 1
      have hlt : (m + 1) / 10 < m + 1 := Nat.div_lt_self (Nat.succ_pos m) (by decide)
      rw [ih _ (by omega)]
      omega

theorem toDigitsLE_inj {m n : Nat} (h : toDigitsLE m = toDigitsLE n) : m = n := by
  have hm := ofDigitsLE_toDigitsLEAux m m (Nat.le_refl m)
  have hn := ofDigitsLE_toDigitsLEAux n n (Nat.le_refl n)
  unfold toDigitsLE at h
  rw [← hm, ← hn, h]

theorem toDigitsLEAux_mem_lt :
    ∀ fuel n d, d ∈ toDigitsLEAux fuel n → d < 10 := by
  intro fuel
  induction fuel with
  | zero =>
    intro n d hd
    cases n <;> simp [toDigitsLEAux] at hd
  | succ f ih =>
    intro n d hd
    cases n with
    | zero => simp [toDigitsLEAux] at hd
    | succ m =>
      simp only [toDigitsLEAux, List.mem_cons] at hd
      rcases hd with rfl | hd
      · exact Nat.mod_lt _ (by decide)
      · exact ih _ _ hd

theorem toDigitsLE_ne_nil {n : Nat} (hn : n ≠ 0) : toDigitsLE n ≠ [] := by
  cases n with
  | zero => exact absurd rfl hn
  | succ m => simp [toDigitsLE, toDigitsLEAux]

theorem digitChar_inj_of_lt :
    ∀ d : Nat, d < 10 → ∀ e : Nat, e < 10 → Nat.digitChar d = Nat.digitChar e → d = e := by
  decide

theorem digitChar_isDigit : ∀ d : Nat, d < 10 → (Nat.digitChar d).isDigit = true := by
  decide

theorem map_digitChar_inj :
    ∀ l1 l2 : List Nat, (∀ d ∈ l1, d < 10) → (∀ d ∈ l2, d < 10) →
      l1.map Nat.digitChar = l2.map Nat.digitChar → l1 = l2 := by
  intro l1
  induction l1 with
  | nil =>
    intro l2 _ _ h
    cases l2 with
    | nil => rfl
    | cons y ys => simp at h
  | cons x xs ih =>
    intro l2 h1 h2 h
    cases l2 with
    | nil => simp at h
    | cons y ys =>
      simp only [List.map_cons, List.cons.injEq] at h
      obtain ⟨hxy, hrest⟩ := h
      obtain rfl : x = y :=
        digitChar_inj_of_lt x (h1 x (by simp)) y (h2 y (by simp)) hxy
      rw [ih ys (fun d hd => h1 d (by simp [hd])) (fun d hd => h2 d (by simp [hd])) hrest]

theorem natToStr_data_digit :
    ∀ n, ∀ c ∈ (natToStr n).data, c.isDigit = true := by
  intro n c hc
  unfold natToStr at hc
  by_cases hn : n = 0
  · rw [if_pos hn] at hc
    have : c = '0' := by simpa using hc
    subst this
    decide
  · rw [if_neg hn] at hc
    simp only [String.mk, List.mem_reverse, List.mem_map] at hc
    obtain ⟨d, hd, rfl⟩ := hc
    exact digitChar_isDigit d (toDigitsLEAux_mem_lt n n d hd)

theorem natToStr_data_ne_nil : ∀ n, (natToStr n).data ≠ [] := by
  intro n
  unfold natToStr
  by_cases hn : n = 0
  · rw [if_pos hn]
    simp
  · rw [if_neg hn]
    simpa using toDigitsLE_ne_nil hn

theorem natToStr_inj {m n : Nat} (h : natToStr m = natToStr n) : m = n := by
  by_cases hm : m = 0 <;> by_cases hn : n = 0
  · omega
  · exfalso
    unfold natToStr at h
    rw [if_pos hm, if_neg hn] at h
    have hdata : ('0' : Char) :: [] = ((toDigitsLE n).map Nat.digitChar).reverse :=
      congrArg String.data h
    have h0 : ('0' : Char) ∈ ((toDigitsLE n).map Nat.digitChar).reverse := by
      rw [← hdata]; simp
    simp only [List.mem_reverse, List.mem_map] at h0
    obtain ⟨d, hd, hch⟩ := h0
    have hd10 := toDigitsLEAux_mem_lt n n d hd
    obtain rfl : d = 0 := digitChar_inj_of_lt d hd10 0 (by decide) hch
    -- a zero digit at the head of toDigitsLE means n % 10 = 0, and the digit
    -- list of n has length 1, forcing n = 0
    have hlen : ((toDigitsLE n).map Nat.digitChar).reverse.length = 1 := by
      rw [← hdata]; rfl
    simp only [List.length_reverse, List.length_map] at hlen
    cases hh : toDigitsLE n with
    | nil => exact toDigitsLE_ne_nil hn hh
    | cons a l =>
      rw [hh] at hlen hd
      simp only [List.length_cons] at hlen
      have hl : l = [] := List.length_eq_zero.mp (by omega)
      subst hl
      have ha : a = 0 := by have := hd; simp at this; omega
      have := ofDigitsLE_toDigitsLEAux n n (Nat.le_refl n)
      rw [show toDigitsLEAux n n = toDigitsLE n from rfl, hh, ha] at this
      simp [ofDigitsLE] at this
      exact hn this.symm
  · exfalso
    unfold natToStr at h
    rw [if_neg hm, if_pos hn] at h
    have hdata : ((toDigitsLE m).map Nat.digitChar).reverse = ('0' : Char) :: [] :=
      congrArg String.data h
    have h0 : ('0' : Char) ∈ ((toDigitsLE m).map Nat.digitChar).reverse := by
      rw [hdata]; simp
    simp only [List.mem_reverse, List.mem_map] at h0
    obtain ⟨d, hd, hch⟩ := h0
    have hd10 := toDigitsLEAux_mem_lt m m d hd
    obtain rfl : d = 0 := digitChar_inj_of_lt d hd10 0 (by decide) hch
    have hlen : ((toDigitsLE m).map Nat.digitChar).reverse.length = 1 := by
      rw [hdata]; rfl
    simp only [List.length_reverse, List.length_map] at hlen
    cases hh : toDigitsLE m with
    | nil => exact toDigitsLE_ne_nil hm hh
    | cons a l =>
      rw [hh] at hlen hd
      simp only [List.length_cons] at hlen
      have hl : l = [] := List.length_eq_zero.mp (by omega)
      subst hl
      have ha : a = 0 := by have := hd; simp at this; omega
      have := ofDigitsLE_toDigitsLEAux m m (Nat.le_refl m)
      rw [show toDigitsLEAux m m = toDigitsLE m from rfl, hh, ha] at this
      simp [ofDigitsLE] at this
      exact hm this.symm
  · unfold natToStr at h
    rw [if_neg hm, if_neg hn] at h
    have hdata : ((toDigitsLE m).map Nat.digitChar).reverse
        = ((toDigitsLE n).map Nat.digitChar).reverse := congrArg String.data h
    rw [List.reverse_inj] at hdata
    exact toDigitsLE_inj
      (map_digitChar_inj _ _ (fun d hd => toDigitsLEAux_mem_lt m m d hd)
        (fun d hd => toDigitsLEAux_mem_lt n n d hd) hdata)

theorem append_digits_eq :
    ∀ xs : List Char, ∀ ys ds dt : List Char,
      (∀ c ∈ xs, c.isDigit = false) → (∀ c ∈ ys, c.isDigit = false) →
      (∀ c ∈ ds, c.isDigit = true) → (∀ c ∈ dt, c.isDigit = true) →
      xs ++ ds = ys ++ dt → xs = ys ∧ ds = dt := by
  intro xs
  induction xs with
  | nil =>
    intro ys ds dt _ hys hds _ h
    cases ys with
    | nil => exact ⟨rfl, h⟩
    | cons y ys2 =>
      exfalso
      simp only [List.nil_append, List.cons_append] at h
      have hy1 : y.isDigit = true := hds y (by rw [h]; simp)
      have hy2 : y.isDigit = false := hys y (by simp)
      rw [hy1] at hy2
      exact Bool.true_eq_false.mp hy2
  | cons x xs2 ih =>
    intro ys ds dt hxs hys hds hdt h
    cases ys with
    | nil =>
      exfalso
      simp only [List.cons_append, List.nil_append] at h
      have hx1 : x.isDigit = true := hdt x (by rw [← h]; simp)
      have hx2 : x.isDigit = false := hxs x (by simp)
      rw [hx1] at hx2
      exact Bool.true_eq_false.mp hx2
    | cons y ys2 =>
      simp only [List.cons_append, List.cons.injEq] at h
      obtain ⟨rfl, h2⟩ := h
      obtain ⟨hxy, hd⟩ := ih ys2 ds dt (fun c hc => hxs c (by simp [hc]))
        (fun c hc => hys c (by simp [hc])) hds hdt h2
      exact ⟨by rw [hxy], hd⟩

theorem lower_no_digit :
    ∀ t : GateType, ∀ c ∈ t.lower.data, c.isDigit = false := by
  intro t
  cases t <;> decide

theorem lower_inj : ∀ t1 t2 : GateType, t1.lower = t2.lower → t1 = t2 := by
  intro t1 t2
  cases t1 <;> cases t2 <;> decide

theorem two_le_countP_of_getElem {α : Type} {l : List α} {p : α → Bool} :
    ∀ i j : Nat, ∀ hi : i < l.length, ∀ hj : j < l.length, i ≠ j →
      p (l.get ⟨i, hi⟩) = true → p (l.get ⟨j, hj⟩) = true → 2 ≤ l.countP p := by
  induction l with
  | nil => intro i j hi _ _ _ _; exact absurd hi (by simp)
  | cons x xs ih =>
    intro i j hi hj hij hpi hpj
    rw [List.countP_cons]
    cases i with
    | zero =>
      cases j with
      | zero => exact absurd rfl hij
      | succ j2 =>
        have hx : p x = true := hpi
        have hmem : xs.get ⟨j2, by simpa using hj⟩ ∈ xs := List.get_mem xs _ _
        have hpos : 0 < xs.countP p := List.countP_pos_iff.mpr ⟨_, hmem, hpj⟩
        rw [if_pos hx]
        omega
    | succ i2 =>
      cases j with
      | zero =>
        have hx : p x = true := hpj
        have hmem : xs.get ⟨i2, by simpa using hi⟩ ∈ xs := List.get_mem xs _ _
        have hpos : 0 < xs.countP p := List.countP_pos_iff.mpr ⟨_, hmem, hpi⟩
        rw [if_pos hx]
        omega
      | succ j2 =>
        have := ih i2 j2 (by simpa using hi) (by simpa using hj) (by omega) hpi hpj
        omega

theorem gateIds_length (kinds : List GateType) :
    (gateIds kinds).length = kinds.length := by
  simp [gateIds]

theorem gateIds_getD (kinds : List GateType) (i : Nat) (hi : i < kinds.length) :
    (gateIds kinds).getD i "" = gateIdAt kinds i (kinds.getD i .AND) := by
  have hi2 : i < (gateIds kinds).length := by simpa [gateIds] using hi
  rw [List.getD_eq_getElem _ _ hi2, List.getD_eq_getElem _ _ hi]
  simp [gateIds]

theorem gateIdAt_inj (kinds : List GateType) (i j : Nat)
    (hi : i < kinds.length) (hj : j < kinds.length) (hij : i ≠ j) :
    gateIdAt kinds i (kinds.get ⟨i, hi⟩) ≠ gateIdAt kinds j (kinds.get ⟨j, hj⟩) := by
  intro heq
  unfold gateIdAt at heq
  by_cases hci : 1 < sameKindCount kinds (kinds.get ⟨i, hi⟩) <;>
    by_cases hcj : 1 < sameKindCount kinds (kinds.get ⟨j, hj⟩)
  · -- both suffixed: the digit suffixes must agree, forcing i = j
    rw [if_pos hci, if_pos hcj] at heq
    have hdata := congrArg String.data heq
    rw [String.data_append, String.data_append] at hdata
    obtain ⟨-, hsuf⟩ := append_digits_eq _ _ _ _
      (lower_no_digit _) (lower_no_digit _)
      (natToStr_data_digit _) (natToStr_data_digit _) hdata
    have : (i : Nat) + 1 = j + 1 := natToStr_inj (String.ext hsuf)
    omega
  · -- i suffixed, j plain: the nonempty digit suffix cannot vanish
    rw [if_pos hci, if_neg hcj] at heq
    have hdata := congrArg String.data heq
    rw [String.data_append] at hdata
    rw [show (GateType.lower (kinds.get ⟨j, hj⟩)).data
        = (GateType.lower (kinds.get ⟨j, hj⟩)).data ++ [] by simp] at hdata
    obtain ⟨-, hsuf⟩ := append_digits_eq _ _ _ _
      (lower_no_digit _) (lower_no_digit _)
      (natToStr_data_digit _) (by intro c hc; simp at hc) hdata
    exact natToStr_data_ne_nil (i + 1) hsuf
  · -- i plain, j suffixed: symmetric
    rw [if_neg hci, if_pos hcj] at heq
    have hdata := congrArg String.data heq.symm
    rw [String.data_append] at hdata
    rw [show (GateType.lower (kinds.get ⟨i, hi⟩)).data
        = (GateType.lower (kinds.get ⟨i, hi⟩)).data ++ [] by simp] at hdata
    obtain ⟨-, hsuf⟩ := append_digits_eq _ _ _ _
      (lower_no_digit _) (lower_no_digit _)
      (natToStr_data_digit _) (by intro c hc; simp at hc) hdata
    exact natToStr_data_ne_nil (j + 1) hsuf
  · -- both plain: the kinds coincide, so the kind occurs at two positions
    rw [if_neg hci, if_neg hcj] at heq
    have hkk : kinds.get ⟨i, hi⟩ = kinds.get ⟨j, hj⟩ := lower_inj _ _ heq
    have h2 : 2 ≤ sameKindCount kinds (kinds.get ⟨i, hi⟩) := by
      apply two_le_countP_of_getElem i j hi hj hij
      · simp
      · simpa using hkk.symm
    exact hci (by omega)

/-- C5: the serializer's identifier assignment: a gate whose kind occurs
exactly once gets the lowercase kind name alone; when the kind occurs more
than once every gate of that kind gets the kind name suffixed with its
1-based enumeration index among all gates (two AND gates get `and1` and
`and2`); and all emitted identifiers are pairwise distinct. -/
theorem gate_identifiers_spec (kinds : List GateType) (i j : Nat)
    (hi : i < kinds.length) (hj : j < kinds.length) (hij : i ≠ j) :
    (sameKindCount kinds (kinds.getD i .AND) = 1 →
      (gateIds kinds).getD i "" = (kinds.getD i .AND).lower)
    ∧ (1 < sameKindCount kinds (kinds.getD i .AND) →
      (gateIds kinds).getD i "" = (kinds.getD i .AND).lower ++ natToStr (i + 1))
    ∧ gateIds [.AND, .AND] = ["and1", "and2"]
    ∧ (gateIds kinds).getD i "" ≠ (gateIds kinds).getD j "" := by
  refine ⟨?_, ?_, by decide, ?_⟩
  · intro h1
    rw [gateIds_getD kinds i hi]
    unfold gateIdAt
    rw [if_neg (by omega)]
  · intro h1
    rw [gateIds_getD kinds i hi]
    unfold gateIdAt
    rw [if_pos h1]
  · rw [gateIds_getD kinds i hi, gateIds_getD kinds j hj,
      List.getD_eq_getElem _ _ hi, List.getD_eq_getElem _ _ hj]
    exact gateIdAt_inj kinds i j hi hj hij

/-- C5 witness: two AND gates and one OR gate; positions 0 and 2 share the
kind AND and receive distinct suffixed identifiers. -/
theorem gate_identifiers_spec_witness :
    (0 : Nat) < 3 ∧ (2 : Nat) < 3 ∧ (0 : Nat) ≠ 2
    ∧ (gateIds [.AND, .OR, .AND]).getD 0 "" ≠ (gateIds [.AND, .OR, .AND]).getD 2 "" :=
  ⟨by decide, by decide, by decide,
    (gate_identifiers_spec [.AND, .OR, .AND] 0 2 (by decide) (by decide) (by decide)).2.2.2⟩

/-! ## Serializer: skipping unresolvable wires -/

theorem filterMap_eraseIdx_none {α β : Type} (f : α → Option β) :
    ∀ (l : List α) (i : Nat) (hi : i < l.length), f (l.get ⟨i, hi⟩) = none →
      (l.eraseIdx i).filterMap f = l.filterMap f := by
  intro l
  induction l with
  | nil => intro i hi; simp at hi
  | cons x xs ih =>
    intro i hi hnone
    cases i with
    | zero =>
      have hx : f x = none := hnone
      simp [List.eraseIdx, List.filterMap_cons, hx]
    | succ i2 =>
      have hxs : f (xs.get ⟨i2, by simpa using hi⟩) = none := hnone
      simp only [List.eraseIdx, List.filterMap_cons]
      cases hfx : f x with
      | none => exact ih i2 (by simpa using hi) hxs
      | some b => rw [ih i2 (by simpa using hi) hxs]

/-- C6: a wire either of whose endpoints fails to resolve (missing from the
gate or junction identifier maps, or not a connection/junction point)
contributes no connection statement, and the rest of the serialized output
is unchanged: serializing with the unresolvable wire equals serializing
with it deleted (with at least one other wire present, so that the
`% Connections` header appears on both sides). -/
theorem serializer_skips_unresolvable (s : Scene) (i : Nat)
    (hi : i < s.wires.length)
    (hun : wireLine s (s.wires.getD i (none, none)) = none)
    (hrest : s.wires.eraseIdx i ≠ []) :
    tikzLines s = tikzLines { s with wires := s.wires.eraseIdx i }
    ∧ get_all_tikz_code s = get_all_tikz_code { s with wires := s.wires.eraseIdx i } := by
  have hun2 : wireLine s (s.wires.get ⟨i, hi⟩) = none := by
    rw [List.getD_eq_getElem s.wires (none, none) hi] at hun
    exact hun
  have hfm : (s.wires.eraseIdx i).filterMap (wireLine s)
      = s.wires.filterMap (wireLine s) :=
    filterMap_eraseIdx_none (wireLine s) s.wires i hi hun2
  have hne : s.wires.isEmpty = false := by
    cases hw : s.wires with
    | nil => rw [hw] at hi; simp at hi
    | cons a l => rfl
  have hne2 : (s.wires.eraseIdx i).isEmpty = false := by
    cases hw : s.wires.eraseIdx i with
    | nil => exact absurd hw hrest
    | cons a l => rfl
  have h1 : tikzLines s = tikzLines { s with wires := s.wires.eraseIdx i } := by
    show _ = tikzLines ⟨s.gates, s.junctions, s.wires.eraseIdx i⟩
    unfold tikzLines
    rw [show (⟨s.gates, s.junctions, s.wires.eraseIdx i⟩ : Scene).wires
        = s.wires.eraseIdx i from rfl]
    rw [hne, hne2]
    rw [show Scene.kinds ⟨s.gates, s.junctions, s.wires.eraseIdx i⟩ = s.kinds from rfl]
    rw [show wireLine ⟨s.gates, s.junctions, s.wires.eraseIdx i⟩ = wireLine s from rfl]
    rw [hfm]
  exact ⟨h1, congrArg (fun l => String.intercalate "\n" l) h1⟩

/-- C6 witness: `danglingScene`, whose first wire starts at a pin of a
deleted gate; serialization skips exactly that connection statement. -/
theorem serializer_skips_unresolvable_witness :
    (0 : Nat) < danglingScene.wires.length
    ∧ wireLine danglingScene (danglingScene.wires.getD 0 (none, none)) = none
    ∧ danglingScene.wires.eraseIdx 0 ≠ []
    ∧ tikzLines danglingScene
        = tikzLines { danglingScene with wires := danglingScene.wires.eraseIdx 0 } :=
  ⟨by decide, by decide, by decide,
    (serializer_skips_unresolvable danglingScene 0 (by decide) (by decide) (by decide)).1⟩

/-! ## The input-pin wire-count invariant

The two-click gesture validates with `is_valid_connection` before creating
a wire, and rule 5 admits a pin–pin wire into an input pin only while that
pin object has no incident wires at all.  The branch gesture and the
junction bypass are not so guarded, but every wire they admit has a
junction endpoint.  Hence the per-object bound: an input `ConnectionPoint`
object never has two incident wires whose other endpoint is a pin. -/

theorem valid_pins_unoccupied (s : Circuit) (g1 m1 i1 g2 m2 i2 : Nat)
    (r1 r2 : PinRole)
    (h : is_valid_connection s (.pin g1 m1 r1 i1) (.pin g2 m2 r2 i2) = true) :
    (r1 = .input → s.wiresAt (.pin g1 m1 r1 i1) = 0)
    ∧ (r2 = .input → s.wiresAt (.pin g2 m2 r2 i2) = 0) := by
  unfold is_valid_connection at h
  by_cases hab : (Endpoint.pin g1 m1 r1 i1) = (Endpoint.pin g2 m2 r2 i2)
  · rw [if_pos hab] at h
    exact absurd h (by simp)
  · rw [if_neg hab] at h
    constructor
    · intro hr1
      subst hr1
      by_contra hnz
      have hpos : s.wiresAt (.pin g1 m1 .input i1) > 0 := Nat.pos_of_ne_zero hnz
      simp [hpos] at h
    · intro hr2
      subst hr2
      by_contra hnz
      have hpos : s.wiresAt (.pin g2 m2 .input i2) > 0 := Nat.pos_of_ne_zero hnz
      simp [hpos] at h

theorem pinPinWiresAt_le_wiresAt (s : Circuit) (e : Endpoint) :
    s.pinPinWiresAt e ≤ s.wiresAt e := by
  unfold Circuit.pinPinWiresAt Circuit.wiresAt
  apply List.countP_mono_left
  intro w _ hw
  simp only [Bool.or_eq_true, Bool.and_eq_true, decide_eq_true_eq] at hw ⊢
  tauto

theorem step_preserves_input_pin_bound (s : Circuit) (op : Op)
    (h : ∀ x : Endpoint, x.isInputPin = true → s.pinPinWiresAt x ≤ 1) :
    ∀ x : Endpoint, x.isInputPin = true → (step s op).pinPinWiresAt x ≤ 1 := by
  intro x hx
  obtain ⟨gx, mx, ixx, rfl⟩ : ∃ g m i, x = Endpoint.pin g m .input i := by
    rcases x with ⟨g, m, r, i⟩ | j
    · cases r with
      | input => exact ⟨g, m, i, rfl⟩
      | output => simp [Endpoint.isInputPin] at hx
    · simp [Endpoint.isInputPin] at hx
  cases op with
  | placeGate t => exact h _ hx
  | rotateGate gid => exact h _ hx
  | cancelConnect => exact h _ hx
  | startConnect e =>
    simp only [step]
    split
    · exact h _ hx
    · exact h _ hx
  | deleteWire i =>
    exact le_trans ((List.eraseIdx_sublist s.wires i).countP_le _) (h _ hx)
  | deleteGate gid =>
    simp only [step]
    cases hf : s.findGate gid with
    | none => exact h _ hx
    | some cg =>
      exact le_trans ((List.filter_sublist s.wires).countP_le _) (h _ hx)
  | deleteJunction j =>
    exact le_trans ((List.filter_sublist s.wires).countP_le _) (h _ hx)
  | branch =>
    simp only [step]
    cases hc : s.connecting with
    | none => exact h _ hx
    | some a =>
      show (s.wires ++ [(a, Endpoint.junction s.nextJunctionId)]).countP _ ≤ 1
      rw [List.countP_append]
      have hzero : (List.countP
          (fun w => (decide (w.1 = Endpoint.pin gx mx .input ixx) && w.2.isPin)
            || (decide (w.2 = Endpoint.pin gx mx .input ixx) && w.1.isPin))
          [(a, Endpoint.junction s.nextJunctionId)]) = 0 := by
        simp [Endpoint.isPin]
      rw [hzero]
      simpa using h _ hx
  | completeConnect e =>
    simp only [step]
    cases hc : s.connecting with
    | none => exact h _ hx
    | some a =>
      dsimp only
      split
      · split
        · -- a wire (a, e) was appended after passing the validator
          rename_i hcond
          show (s.wires ++ [(a, e)]).countP _ ≤ 1
          rw [List.countP_append]
          simp only [Bool.and_eq_true, decide_eq_true_eq] at hcond
          obtain ⟨hne, hval⟩ := hcond
          by_cases hpred : ((decide (a = Endpoint.pin gx mx .input ixx) && e.isPin)
              || (decide (e = Endpoint.pin gx mx .input ixx) && a.isPin)) = true
          · -- the new wire touches x with a pin on the other side: then both
            -- endpoints are pins and the validator forces x to be unoccupied
            have hone : List.countP
                (fun w => (decide (w.1 = Endpoint.pin gx mx .input ixx) && w.2.isPin)
                  || (decide (w.2 = Endpoint.pin gx mx .input ixx) && w.1.isPin))
                [(a, e)] ≤ 1 := by
              rw [List.countP_cons]
              simp only [List.countP_nil]
              split <;> omega
            simp only [Bool.or_eq_true, Bool.and_eq_true, decide_eq_true_eq] at hpred
            have hmain : s.pinPinWiresAt (Endpoint.pin gx mx .input ixx) = 0 := by
              rcases hpred with ⟨ha, hepin⟩ | ⟨he, hapin⟩
              · rcases e with ⟨g2, m2, r2, i2⟩ | j2
                · rw [ha] at hval
                  have hz := (valid_pins_unoccupied s gx mx ixx g2 m2 i2 .input r2 hval).1 rfl
                  have hle := pinPinWiresAt_le_wiresAt s (Endpoint.pin gx mx .input ixx)
                  omega
                · simp [Endpoint.isPin] at hepin
              · rcases a with ⟨g2, m2, r2, i2⟩ | j2
                · rw [he] at hval
                  have hz := (valid_pins_unoccupied s g2 m2 i2 gx mx ixx r2 .input hval).2 rfl
                  have hle := pinPinWiresAt_le_wiresAt s (Endpoint.pin gx mx .input ixx)
                  omega
                · simp [Endpoint.isPin] at hapin
            have hrfl : s.pinPinWiresAt (Endpoint.pin gx mx .input ixx)
                = s.wires.countP (fun w =>
                    (decide (w.1 = Endpoint.pin gx mx .input ixx) && w.2.isPin)
                    || (decide (w.2 = Endpoint.pin gx mx .input ixx) && w.1.isPin)) := rfl
            omega
          · -- the new wire does not add a pin-pin incidence at x
            have hzero : List.countP
                (fun w => (decide (w.1 = Endpoint.pin gx mx .input ixx) && w.2.isPin)
                  || (decide (w.2 = Endpoint.pin gx mx .input ixx) && w.1.isPin))
                [(a, e)] = 0 := by
              rw [List.countP_cons]
              simp only [List.countP_nil]
              rw [if_neg]
              intro hcontra
              exact hpred hcontra
            rw [hzero]
            simpa using h _ hx
        · exact h _ hx
      · exact h _ hx

/-- C1 counterexample: the claim fails on the code.  First run: starting a
connection twice from the same input pin and branching each time attaches
two junction wires to that pin (`is_valid_connection` is never consulted by
the branch gesture, and its junction rule would admit the wire anyway).
Second run: an input pin holds a validated pin–pin wire; rotating its gate
replaces the pin objects with fresh, empty ones, after which the validator
accepts a second pin–pin wire onto the same logical input pin. -/
theorem input_pin_wire_count_counterexample :
    (run [.placeGate .AND, .startConnect (.pin 0 0 .input 0), .branch,
          .cancelConnect, .startConnect (.pin 0 0 .input 0),
          .branch]).wiresAtInputPosition 0 0 = 2
    ∧ (run [.placeGate .AND, .placeGate .AND, .placeGate .AND,
            .startConnect (.pin 1 0 .output 0), .completeConnect (.pin 0 0 .input 0),
            .rotateGate 0,
            .startConnect (.pin 2 0 .output 0),
            .completeConnect (.pin 0 1 .input 0)]).pinPinWiresAtInputPosition 0 0 = 2 :=
  ⟨by decide, by decide⟩

/-- C1 (amended): after any sequence of operations, every input
`ConnectionPoint` object has at most one incident wire whose other endpoint
is also a `ConnectionPoint`.  Wires ending at a junction are exempt (the
branch gesture skips validation and the validator's junction rule admits
them in any number), and the bound is per point object: rotation replaces a
gate's `ConnectionPoint` objects with fresh ones. -/
theorem input_pin_pin_wire_bound (ops : List Op) (e : Endpoint)
    (he : e.isInputPin = true) :
    (run ops).pinPinWiresAt e ≤ 1 := by
  suffices hgen : ∀ s : Circuit, (∀ x : Endpoint, x.isInputPin = true → s.pinPinWiresAt x ≤ 1) →
      ∀ x : Endpoint, x.isInputPin = true → (ops.foldl step s).pinPinWiresAt x ≤ 1 by
    exact hgen emptyCircuit (fun x _ => Nat.zero_le 1) e he
  induction ops with
  | nil => intro s hs; exact hs
  | cons op rest ih =>
    intro s hs
    exact ih (step s op) (step_preserves_input_pin_bound s op hs)

/-- C1 witness: after a validated pin-to-pin connection, the input pin
carries exactly one pin–pin wire, within the proved bound. -/
theorem input_pin_pin_wire_bound_witness :
    (Endpoint.pin 0 0 .input 0).isInputPin = true
    ∧ (run [.placeGate .AND, .placeGate .AND, .startConnect (.pin 1 0 .output 0),
            .completeConnect (.pin 0 0 .input 0)]).pinPinWiresAt (.pin 0 0 .input 0) ≤ 1 :=
  ⟨by decide,
    input_pin_pin_wire_bound
      [.placeGate .AND, .placeGate .AND, .startConnect (.pin 1 0 .output 0),
       .completeConnect (.pin 0 0 .input 0)] (.pin 0 0 .input 0) (by decide)⟩
